import Mathlib

/-!
Shallow embedding of the `rime` core crate (src/core/src/): the `Frame`
keyed container with read-only ancestor chain (frame.rs), the stream codec
(`write_to_stream` / `read_from_stream`), the `File` reader/writer
(file.rs), and the `Tray` pipeline runner (tray.rs, module.rs).

Machine integers: the stored `u8` value and the encoded byte stream are
modelled as `Nat` (no arithmetic is performed on them, so no wraparound
matters); `u64::MAX` is the literal `2 ^ 64 - 1`.
-/

namespace Rime

/-- Storable values. The source's open trait `Serializeable` has exactly two
registered implementations, `String` (UTF-8 text) and `u8` (unsigned byte);
the shallow embedding closes the set to those two. -/
inductive Value where
  | string (s : String)
  | u8 (b : Nat)
deriving DecidableEq, Repr

/-- The concrete Rust types a caller can request from `Frame::get::<T>`:
`String` or `u8`. This models the type parameter `T`. -/
inductive Ty where
  | string
  | u8
deriving DecidableEq, Repr

/-- Runtime type of a stored value; models `as_any().downcast_ref::<T>()`
succeeding exactly when the stored concrete type is `T`. -/
def Value.ty : Value → Ty
  | .string _ => .string
  | .u8 _ => .u8

/-- The error strings produced by `Frame::get` / `Frame::get_mut`, one
constructor per `format!` site in frame.rs:
`typeMismatch` = "Key \"{key}\" is not of specified type",
`notFoundInFrameOrParents` = "No key \"{key}\" in frame or parents",
`notFoundInFrame` = "No key \"{key}\" in frame". -/
inductive GetError where
  | typeMismatch (key : String)
  | notFoundInFrameOrParents (key : String)
  | notFoundInFrame (key : String)
deriving DecidableEq, Repr

/-- `Frame` from frame.rs: `data: HashMap<String, Box<dyn Serializeable>>`
modelled as an association list (unique keys, first match wins), and
`parent: Option<Arc<Frame>>` modelled as an optional nested frame (the
`Arc` is immutable shared ownership, so a plain value is faithful). -/
inductive Frame where
  | mk (data : List (String × Value)) (parent : Option Frame)

/-- Field accessor for the local storage map. -/
def Frame.data : Frame → List (String × Value)
  | .mk d _ => d

/-- Field accessor for the optional ancestor. -/
def Frame.parent : Frame → Option Frame
  | .mk _ p => p

/-- `Frame::new()` — empty frame, no ancestor. -/
def Frame.new : Frame := .mk [] none

/-- `Frame::new_with_parent(parent)` — empty frame with the given ancestor. -/
def Frame.new_with_parent (parent : Frame) : Frame := .mk [] (some parent)

/-- `HashMap::insert` semantics on the association-list model: overwrite the
existing entry for the key, or add a new entry. -/
def insertAssoc : List (String × Value) → String → Value → List (String × Value)
  | [], k, v => [(k, v)]
  | (k', v') :: rest, k, v =>
    if k' = k then (k, v) :: rest else (k', v') :: insertAssoc rest k v

/-- `Frame::get::<T>(key)` from frame.rs: check local storage; on a local hit
downcast (wrong type is a type-mismatch error); on a local miss recurse into
the parent, and if the parent lookup fails for ANY reason report the
"No key ... in frame or parents" error (this reproduces the source's
collapse of an ancestor type mismatch into a not-found error). -/
def Frame.get : Frame → Ty → String → Except GetError Value
  | .mk data parent, ty, key =>
    match data.lookup key with
    | some x =>
      if x.ty = ty then .ok x else .error (.typeMismatch key)
    | none =>
      match parent with
      | some frame =>
        match frame.get ty key with
        | .ok v => .ok v
        | .error _ => .error (.notFoundInFrameOrParents key)
      | none => .error (.notFoundInFrame key)

/-- `Frame::get_mut::<T>(key)` from frame.rs: local storage only, the parent
is never consulted. (The returned mutable reference is modelled as the
looked-up value; the claims concern the lookup/error behaviour.) -/
def Frame.get_mut : Frame → Ty → String → Except GetError Value
  | .mk data _, ty, key =>
    match data.lookup key with
    | some x =>
      if x.ty = ty then .ok x else .error (.typeMismatch key)
    | none => .error (.notFoundInFrame key)

/-- `Frame::set(key, value)` from frame.rs: insert/overwrite in the local
map only; the parent pointer is carried over unchanged. -/
def Frame.set (f : Frame) (key : String) (value : Value) : Frame :=
  .mk (insertAssoc f.data key value) f.parent

/-- Modelled from the spec: the per-record byte encoding is produced by the
external `bincode` + `typetag` crates (not in src/); §4.3 and §6 of the spec
describe it as a self-describing encoding of the local key/value map where
each value carries an explicit type tag. Model: a string is its length
followed by one token per character; a value is a variant tag (0 = text,
1 = byte) followed by its payload. -/
def encodeString (s : String) : List Nat :=
  s.length :: s.data.map Char.toNat

/-- Tagged encoding of one stored value (the `typetag` runtime type tag). -/
def encodeValue : Value → List Nat
  | .string s => 0 :: encodeString s
  | .u8 b => [1, b]

/-- Concatenated encoding of the map entries, in map order. -/
def encodeEntries : List (String × Value) → List Nat
  | [] => []
  | (k, v) :: es => encodeString k ++ encodeValue v ++ encodeEntries es

/-- Encoding of the whole local map: entry count, then the entries
(bincode's length-prefixed map encoding). -/
def encodeMap (m : List (String × Value)) : List Nat :=
  m.length :: encodeEntries m

/-- Consume exactly `n` tokens from the stream, failing on short input. -/
def readN : Nat → List Nat → Option (List Nat × List Nat)
  | 0, ts => some ([], ts)
  | _ + 1, [] => none
  | n + 1, t :: ts =>
    match readN n ts with
    | some (xs, rest) => some (t :: xs, rest)
    | none => none

/-- Decode one length-prefixed string, returning the remaining stream. -/
def decodeString : List Nat → Option (String × List Nat)
  | [] => none
  | n :: ts =>
    match readN n ts with
    | some (cs, rest) => some (String.mk (cs.map Char.ofNat), rest)
    | none => none

/-- Decode one tagged value, returning the remaining stream. -/
def decodeValue : List Nat → Option (Value × List Nat)
  | [] => none
  | 0 :: ts =>
    match decodeString ts with
    | some (s, rest) => some (.string s, rest)
    | none => none
  | 1 :: ts =>
    match ts with
    | [] => none
    | b :: rest => some (.u8 b, rest)
  | _ :: _ => none

/-- Decode exactly `n` key/value entries, returning the remaining stream. -/
def decodeEntries : Nat → List Nat → Option (List (String × Value) × List Nat)
  | 0, ts => some ([], ts)
  | n + 1, ts =>
    match decodeString ts with
    | none => none
    | some (k, ts1) =>
      match decodeValue ts1 with
      | none => none
      | some (v, ts2) =>
        match decodeEntries n ts2 with
        | none => none
        | some (es, rest) => some ((k, v) :: es, rest)

/-- Decode one whole encoded map (count, then that many entries); a stream
with no count token at all is a decode failure. -/
def decodeMap (ts : List Nat) : Option (List (String × Value) × List Nat) :=
  match ts with
  | [] => none
  | n :: rest => decodeEntries n rest

/-- The two `std::io::ErrorKind` values the source distinguishes:
`UnexpectedEof`, and everything else (the code only ever constructs
`Other`). -/
inductive ErrorKind where
  | other
  | unexpectedEof
deriving DecidableEq, Repr

/-- `std::io::Error`, reduced to the field the source inspects. -/
structure IoError where
  kind : ErrorKind
deriving DecidableEq, Repr

/-- `Frame::write_to_stream` from frame.rs: `serialize_into(destination,
&self.data)` — only the local map is encoded, the parent never. Writing to
an in-memory buffer cannot fail, so the model returns the bytes. -/
def Frame.write_to_stream (f : Frame) : List Nat :=
  encodeMap f.data

/-- `Frame::read_from_stream` from frame.rs, in state-passing style: on a
successful decode `self.data` is replaced by the decoded map (the parent is
untouched) and the stream advances; on any decode failure the function
early-returns `io::Error::new(ErrorKind::Other, ...)` BEFORE assigning, so
the frame and the stream are returned unchanged. -/
def Frame.read_from_stream (f : Frame) (source : List Nat) :
    Except IoError Unit × Frame × List Nat :=
  match decodeMap source with
  | some (d, rest) => (.ok (), .mk d f.parent, rest)
  | none => (.error ⟨.other⟩, f, source)

/-- `File` from file.rs: exactly one of `reader` (remaining input bytes) and
`writer` (bytes written so far) is populated, per the construction mode. -/
structure File where
  reader : Option (List Nat)
  writer : Option (List Nat)

/-- `FileMode` from file.rs. -/
inductive FileMode where
  | read
  | write
  | append
deriving DecidableEq, Repr

/-- `File::new(filename, mode)` from file.rs, for a successful open of a file
currently holding `contents`: `Read` buffers the contents for reading;
`Write` truncates (fresh empty output); `Append` keeps the contents and
appends after them. The other field is `None`. -/
def File.new (contents : List Nat) : FileMode → File
  | .read => ⟨some contents, none⟩
  | .write => ⟨none, some []⟩
  | .append => ⟨none, some contents⟩

/-- Outcome of `File::read_frame`: the `std::io::Result<Option<Frame>>`
value (carrying the advanced file state), or a panic. -/
inductive ReadOutcome where
  | ok (fr : Option Frame) (f : File)
  | err (e : IoError) (f : File)
  | panicked (msg : String)

/-- Outcome of `File::write_frame`: the `std::io::Result<()>` value
(carrying the advanced file state), or a panic. -/
inductive WriteOutcome where
  | ok (f : File)
  | err (e : IoError) (f : File)
  | panicked (msg : String)

/-- `File::read_frame` from file.rs: on a write-only file, panic; otherwise
decode one frame into a fresh `Frame::new()`; an error whose kind is
`UnexpectedEof` would be normalized to `Ok(None)`, every other error is
propagated. -/
def File.read_frame (file : File) : ReadOutcome :=
  match file.reader with
  | some r =>
    match (Frame.new).read_from_stream r with
    | (.ok _, fr, rest) => .ok (some fr) { file with reader := some rest }
    | (.error e, _, _) =>
      match e.kind with
      | .unexpectedEof => .ok none { file with reader := some r }
      | .other => .err e { file with reader := some r }
  | none => .panicked "trying to read to a write-only file"

/-- `File::write_frame` from file.rs: on a read-only file, panic; otherwise
append the frame's encoding to the output stream. -/
def File.write_frame (file : File) (frame : Frame) : WriteOutcome :=
  match file.writer with
  | some w => .ok { file with writer := some (w ++ frame.write_to_stream) }
  | none => .panicked "trying to write to a read-only file"

/-- `Module::process` (module.rs): a transform stage, one frame in, one
frame out. The trait method takes `&self`, so a stage is modelled as the
function it computes. -/
def Module := Frame → Frame

/-- `StartModule::start` (module.rs): the start stage. Implementations may
hold internal state (spec §4.5), so the stage is modelled by the result of
its i-th call: `start_module i` is what the (i+1)-st call to `start()`
returns. -/
def StartModule := Nat → Option Frame

/-- `Tray` from tray.rs: one start stage and the transform stages in
registration order. -/
structure Tray where
  start_module : StartModule
  modules : List Module

/-- The inner loop of `Tray::run_bounded`: `for m in self.modules.iter()
{ fr = m.process(fr); }` — the frame threaded through every transform in
registration order. -/
def processModules (ms : List Module) (fr : Frame) : Frame :=
  ms.foldl (fun f m => m f) fr

/-- Helper for `Tray::run_bounded`: run up to `fuel` more iterations, the
next call to the start stage being call number `i`. Returns the trace of
final frames, one per iteration that ran (the Rust discards them). -/
def runFrom (t : Tray) (i : Nat) : Nat → List Frame
  | 0 => []
  | fuel + 1 =>
    match t.start_module i with
    | some fr => processModules t.modules fr :: runFrom t (i + 1) fuel
    | none => []

/-- `Tray::run_bounded(num)` from tray.rs: `for _ in 0..num { match
self.start_module.start() { Some(mut fr) => { ...process all... }, None =>
break } }`. -/
def Tray.run_bounded (t : Tray) (num : Nat) : List Frame :=
  runFrom t 0 num

/-- `Tray::run()` from tray.rs: `self.run_bounded(std::u64::MAX)`. -/
def Tray.run (t : Tray) : List Frame :=
  t.run_bounded (2 ^ 64 - 1)

/-! ### Codec round-trip lemmas -/

theorem readN_exact (xs r : List Nat) : readN xs.length (xs ++ r) = some (xs, r) := by
  induction xs with
  | nil => rfl
  | cons x xs ih => simp [readN, ih]

theorem readN_short {n : Nat} {l : List Nat} (h : l.length < n) : readN n l = none := by
  induction l generalizing n with
  | nil =>
    match n, h with
    | n + 1, _ => rfl
  | cons x xs ih =>
    match n, h with
    | n + 1, h =>
      have : xs.length < n := by simpa using h
      simp [readN, ih this]

theorem decodeString_encode (s : String) (r : List Nat) :
    decodeString (encodeString s ++ r) = some (s, r) := by
  have hlen : s.length = (s.data.map Char.toNat).length := by
    rw [List.length_map]
    rfl
  simp only [encodeString, List.cons_append, decodeString, hlen,
    readN_exact (s.data.map Char.toNat) r]
  simp [List.map_map, Function.comp_def, Char.ofNat_toNat]

theorem decodeValue_encode (v : Value) (r : List Nat) :
    decodeValue (encodeValue v ++ r) = some (v, r) := by
  cases v with
  | string s =>
    simp only [encodeValue, List.cons_append, decodeValue, List.append_assoc,
      decodeString_encode s r]
  | u8 b => rfl

theorem decodeEntries_encode (es : List (String × Value)) (r : List Nat) :
    decodeEntries es.length (encodeEntries es ++ r) = some (es, r) := by
  induction es generalizing r with
  | nil => rfl
  | cons e es ih =>
    obtain ⟨k, v⟩ := e
    simp only [encodeEntries, List.length_cons, List.append_assoc, decodeEntries,
      decodeString_encode k, decodeValue_encode v, ih]

theorem decodeMap_encode (m : List (String × Value)) (r : List Nat) :
    decodeMap (encodeMap m ++ r) = some (m, r) := by
  simp only [encodeMap, List.cons_append, decodeMap, decodeEntries_encode]

/-! ### Codec truncation lemmas: decoding a strictly shorter initial
segment of an encoded record always fails. -/

theorem append_split {α : Type} (p q A B : List α) (h : p ++ q = A ++ B) :
    (∃ t, A = p ++ t ∧ q = t ++ B) ∨ (∃ t, p = A ++ t ∧ t ++ q = B) := by
  induction A generalizing p with
  | nil =>
    right
    exact ⟨p, rfl, h⟩
  | cons a A ih =>
    cases p with
    | nil =>
      left
      exact ⟨a :: A, rfl, h⟩
    | cons x p =>
      simp only [List.cons_append, List.cons.injEq] at h
      obtain ⟨rfl, h2⟩ := h
      rcases ih p h2 with ⟨t, hA, hq⟩ | ⟨t, hp, hB⟩
      · exact Or.inl ⟨t, by rw [hA, List.cons_append], hq⟩
      · exact Or.inr ⟨t, by rw [hp, List.cons_append], hB⟩

theorem decodeString_trunc {s : String} {p q : List Nat}
    (h : p ++ q = encodeString s) (hq : q ≠ []) : decodeString p = none := by
  cases p with
  | nil => rfl
  | cons n p =>
    simp only [encodeString, List.cons_append, List.cons.injEq] at h
    obtain ⟨rfl, h2⟩ := h
    have hlen : p.length < s.length := by
      have hc := congrArg List.length h2
      simp only [List.length_append, List.length_map] at hc
      have hql : 0 < q.length := List.length_pos.mpr hq
      have hsd : s.length = s.data.length := rfl
      omega
    simp [decodeString, readN_short hlen]

theorem decodeValue_trunc {v : Value} {p q : List Nat}
    (h : p ++ q = encodeValue v) (hq : q ≠ []) : decodeValue p = none := by
  cases v with
  | string s =>
    cases p with
    | nil => rfl
    | cons n p =>
      simp only [encodeValue, List.cons_append, List.cons.injEq] at h
      obtain ⟨rfl, h2⟩ := h
      simp [decodeValue, decodeString_trunc h2 hq]
  | u8 b =>
    cases p with
    | nil => rfl
    | cons n p =>
      simp only [encodeValue, List.cons_append, List.cons.injEq] at h
      obtain ⟨rfl, h2⟩ := h
      cases p with
      | nil => rfl
      | cons m p =>
        simp only [List.cons_append, List.cons.injEq] at h2
        obtain ⟨rfl, h3⟩ := h2
        exact absurd (List.append_eq_nil.mp h3).2 hq

theorem decodeEntries_trunc {es : List (String × Value)} {p q : List Nat}
    (h : p ++ q = encodeEntries es) (hq : q ≠ []) :
    decodeEntries es.length p = none := by
  induction es generalizing p q with
  | nil =>
    exact absurd (List.append_eq_nil.mp h).2 hq
  | cons e es ih =>
    obtain ⟨k, v⟩ := e
    simp only [encodeEntries, List.append_assoc] at h
    rcases append_split p q _ _ h with ⟨t, hA, hq2⟩ | ⟨t, hp, hB⟩
    · -- p ends inside (or exactly at the end of) the key's encoding
      cases t with
      | nil =>
        rw [List.append_nil] at hA
        subst hA
        have hk := decodeString_encode k []
        rw [List.append_nil] at hk
        simp [decodeEntries, hk, decodeValue]
      | cons c t =>
        have hp : decodeString p = none :=
          decodeString_trunc (p := p) (q := c :: t) hA.symm (by simp)
        simp [decodeEntries, hp]
    · -- p covers the key's encoding; split the rest against the value
      subst hp
      rcases append_split t q _ _ hB with ⟨u, hA2, hq3⟩ | ⟨u, ht, hB2⟩
      · cases u with
        | nil =>
          rw [List.append_nil] at hA2
          subst hA2
          have hv := decodeValue_encode v []
          rw [List.append_nil] at hv
          rw [List.nil_append] at hq3
          subst hq3
          cases es with
          | nil => simp [encodeEntries] at hq
          | cons e2 es2 =>
            have hnil : decodeString [] = none := rfl
            simp [decodeEntries, decodeString_encode, hv, hnil]
        | cons c u =>
          have hv : decodeValue t = none :=
            decodeValue_trunc (p := t) (q := c :: u) hA2.symm (by simp)
          simp [decodeEntries, decodeString_encode, hv]
      · subst ht
        have hrec : decodeEntries es.length u = none := ih hB2 hq
        simp [decodeEntries, decodeString_encode, decodeValue_encode, hrec]

theorem decodeMap_trunc {m : List (String × Value)} {p q : List Nat}
    (h : p ++ q = encodeMap m) (hq : q ≠ []) : decodeMap p = none := by
  cases p with
  | nil => rfl
  | cons n p =>
    simp only [encodeMap, List.cons_append, List.cons.injEq] at h
    obtain ⟨rfl, h2⟩ := h
    simpa [decodeMap] using decodeEntries_trunc h2 hq

/-! ### Map and runner lemmas -/

theorem lookup_insertAssoc (d : List (String × Value)) (k : String) (v : Value) :
    (insertAssoc d k v).lookup k = some v := by
  induction d with
  | nil => simp [insertAssoc, List.lookup]
  | cons hd tl ih =>
    obtain ⟨k', v'⟩ := hd
    by_cases h : k' = k
    · simp [insertAssoc, h, List.lookup]
    · have hne : (k == k') = false := by
        simp [beq_eq_false_iff_ne]
        exact fun hc => h hc.symm
      simp [insertAssoc, h, List.lookup, hne, ih]

theorem runFrom_length_le (t : Tray) (i fuel : Nat) :
    (runFrom t i fuel).length ≤ fuel := by
  induction fuel generalizing i with
  | zero => simp [runFrom]
  | succ fuel ih =>
    simp only [runFrom]
    cases t.start_module i with
    | some fr => simpa [runFrom] using Nat.succ_le_succ (ih (i + 1))
    | none => simp

theorem runFrom_get (t : Tray) (i fuel j : Nat) (h : j < (runFrom t i fuel).length) :
    ∃ fr, t.start_module (i + j) = some fr ∧
      (runFrom t i fuel)[j]? = some (processModules t.modules fr) := by
  induction fuel generalizing i j with
  | zero => simp [runFrom] at h
  | succ fuel ih =>
    cases hs : t.start_module i with
    | none => simp only [runFrom, hs] at h; simp at h
    | some fr =>
      simp only [runFrom, hs] at h ⊢
      cases j with
      | zero => exact ⟨fr, by simpa using hs, by simp⟩
      | succ j =>
        have h' : j < (runFrom t (i + 1) fuel).length := by
          simpa using Nat.lt_of_succ_lt_succ h
        obtain ⟨fr', h1, h2⟩ := ih (i + 1) j h'
        refine ⟨fr', ?_, ?_⟩
        · rw [← h1]; ring_nf
        · simpa using h2

theorem runFrom_stop (t : Tray) (i fuel j : Nat) (hj : t.start_module (i + j) = none) :
    (runFrom t i fuel).length ≤ j := by
  induction fuel generalizing i j with
  | zero => simp [runFrom]
  | succ fuel ih =>
    simp only [runFrom]
    cases hs : t.start_module i with
    | none => simp
    | some fr =>
      cases j with
      | zero => rw [Nat.add_zero] at hj; rw [hj] at hs; cases hs
      | succ j =>
        have hj' : t.start_module (i + 1 + j) = none := by
          rw [← hj]; ring_nf
        simpa using Nat.succ_le_succ (ih (i + 1) j hj')

theorem runFrom_length_exhaust (t : Tray) (i fuel m : Nat) (hm : m ≤ fuel)
    (hnone : t.start_module (i + m) = none)
    (hsome : ∀ j, j < m → (t.start_module (i + j)).isSome = true) :
    (runFrom t i fuel).length = m := by
  induction m generalizing i fuel with
  | zero =>
    rw [Nat.add_zero] at hnone
    cases fuel with
    | zero => simp [runFrom]
    | succ fuel => simp only [runFrom]; simp [hnone]
  | succ m ih =>
    cases fuel with
    | zero => omega
    | succ fuel =>
      have h0 : (t.start_module (i + 0)).isSome = true := hsome 0 (Nat.succ_pos m)
      rw [Nat.add_zero] at h0
      obtain ⟨fr, hfr⟩ := Option.isSome_iff_exists.mp h0
      simp only [runFrom]
      rw [hfr]
      have hnone' : t.start_module (i + 1 + m) = none := by
        rw [← hnone]; ring_nf
      have hsome' : ∀ j, j < m → (t.start_module (i + 1 + j)).isSome = true := by
        intro j hjm
        have := hsome (j + 1) (Nat.succ_lt_succ hjm)
        rw [← this]; ring_nf
      simp [ih (i + 1) fuel (Nat.le_of_succ_le_succ hm) hnone' hsome']

theorem runFrom_length_full (t : Tray) (i fuel : Nat)
    (h : ∀ j, j < fuel → (t.start_module (i + j)).isSome = true) :
    (runFrom t i fuel).length = fuel := by
  induction fuel generalizing i with
  | zero => simp [runFrom]
  | succ fuel ih =>
    have h0 : (t.start_module (i + 0)).isSome = true := h 0 (Nat.succ_pos fuel)
    rw [Nat.add_zero] at h0
    obtain ⟨fr, hfr⟩ := Option.isSome_iff_exists.mp h0
    have h' : ∀ j, j < fuel → (t.start_module (i + 1 + j)).isSome = true := by
      intro j hj
      have := h (j + 1) (Nat.succ_lt_succ hj)
      rw [← this]; ring_nf
    simp only [runFrom]
    rw [hfr]
    simp [ih (i + 1) h']

/-! ### Claim theorems -/

/-- Claim C1: ancestor delegation with local shadowing — if ancestor `A`
holds `k` with value `v` (at the requested type) and child `C` has `A` as
parent with no local entry for `k`, then `C.get` returns `v`; after
`C.set(k, v2)` the child's `get` returns `v2`, the child still points at the
untouched `A`, and `A.get` still returns `v`. -/
theorem frame_ancestor_delegation (A C : Frame) (k : String) (v v2 : Value) (ty : Ty)
    (hA : A.get ty k = .ok v) (hC : C.parent = some A)
    (hloc : C.data.lookup k = none) (hty : v2.ty = ty) :
    C.get ty k = .ok v
    ∧ (C.set k v2).get ty k = .ok v2
    ∧ (C.set k v2).parent = some A
    ∧ A.get ty k = .ok v := by
  cases C with
  | mk d p =>
    simp only [Frame.data] at hloc
    simp only [Frame.parent] at hC
    subst hC
    refine ⟨?_, ?_, ?_, hA⟩
    · simp [Frame.get, hloc, hA]
    · simp [Frame.set, Frame.data, Frame.parent, Frame.get, lookup_insertAssoc, hty]
    · simp [Frame.set, Frame.parent]

/-- Claim C1 witness: ancestor `{"k": 1u8}`, child fresh; the child reads 1,
after `set("k", 2u8)` reads 2, and the ancestor still reads 1. -/
theorem frame_ancestor_delegation_witness :
    (Frame.new_with_parent (Frame.mk [("k", Value.u8 1)] none)).get Ty.u8 "k"
      = .ok (Value.u8 1)
    ∧ ((Frame.new_with_parent (Frame.mk [("k", Value.u8 1)] none)).set "k" (Value.u8 2)).get
        Ty.u8 "k" = .ok (Value.u8 2)
    ∧ ((Frame.new_with_parent (Frame.mk [("k", Value.u8 1)] none)).set "k"
        (Value.u8 2)).parent = some (Frame.mk [("k", Value.u8 1)] none)
    ∧ (Frame.mk [("k", Value.u8 1)] none).get Ty.u8 "k" = .ok (Value.u8 1) :=
  frame_ancestor_delegation (Frame.mk [("k", Value.u8 1)] none)
    (Frame.new_with_parent (Frame.mk [("k", Value.u8 1)] none))
    "k" (Value.u8 1) (Value.u8 2) Ty.u8 rfl rfl rfl rfl

/-- Claim C2: round-trip — `write_to_stream` serializes exactly the local
map (never the ancestor), and `read_from_stream` of those bytes into any
frame `g` succeeds, consumes the whole stream, and leaves `g` holding
exactly `f`'s local key/value pairs (with `g`'s own parent untouched). -/
theorem frame_stream_round_trip (f g : Frame) :
    f.write_to_stream = encodeMap f.data
    ∧ g.read_from_stream f.write_to_stream
        = (.ok (), Frame.mk f.data g.parent, ([] : List Nat)) := by
  refine ⟨rfl, ?_⟩
  have h := decodeMap_encode f.data []
  rw [List.append_nil] at h
  simp [Frame.read_from_stream, Frame.write_to_stream, h]

/-- Claim C3 (code bug evaluation): reading a frame from a file opened in
`Read` mode on an EMPTY stream returns an `ErrorKind::Other` io error, not
`Ok(None)` — `read_from_stream` rewraps every decode failure with kind
`Other`, so `read_frame`'s `UnexpectedEof => Ok(None)` arm can never fire. -/
theorem file_read_frame_empty_stream_err :
    (File.new [] FileMode.read).read_frame
      = ReadOutcome.err ⟨ErrorKind.other⟩ (File.mk (some []) none) := rfl

/-- Claim C4 (code bug evaluation): key `"k"` exists in the ancestor but as
text, and the child requests a byte — the source reports the not-found
error ("No key ... in frame or parents") instead of the type mismatch. -/
theorem frame_get_ancestor_mismatch_collapses :
    (Frame.new_with_parent (Frame.mk [("k", Value.string "x")] none)).get Ty.u8 "k"
      = .error (GetError.notFoundInFrameOrParents "k") := rfl

/-- Claim C5: `run_bounded(n)` runs at most `n` iterations; every iteration
that ran got `Some fr` from the start stage at that call index and threaded
`fr` through the transform stages in registration order (the left fold over
the module list); a `None` from the start stage stops the run at that call;
and a start stage that answers every one of the first `n` calls yields
exactly `n` iterations. -/
theorem tray_run_bounded_correct (t : Tray) (n : Nat) :
    (t.run_bounded n).length ≤ n
    ∧ (∀ j, ∀ h : j < (t.run_bounded n).length,
        ∃ fr, t.start_module j = some fr ∧
          (t.run_bounded n)[j]? = some (processModules t.modules fr))
    ∧ (∀ j, t.start_module j = none → (t.run_bounded n).length ≤ j)
    ∧ ((∀ j, j < n → (t.start_module j).isSome = true) → (t.run_bounded n).length = n) := by
  refine ⟨runFrom_length_le t 0 n, ?_, ?_, ?_⟩
  · intro j h
    simpa using runFrom_get t 0 n j h
  · intro j hj
    exact runFrom_stop t 0 n j (by simpa using hj)
  · intro hs
    exact runFrom_length_full t 0 n (fun j hj => by simpa using hs j hj)

/-- Claim C5 witness: a start stage that always produces a frame, bound 3 —
exactly 3 iterations run. -/
theorem tray_run_bounded_correct_witness :
    (Tray.run_bounded ⟨fun _ => some (Frame.mk [] none), []⟩ 3).length = 3 :=
  (tray_run_bounded_correct ⟨fun _ => some (Frame.mk [] none), []⟩ 3).2.2.2
    (fun _ _ => rfl)

/-- Claim C6: `get_mut` is local-only — its result never depends on the
parent; a locally absent key is `KeyNotFound` (the "No key ... in frame"
error) even when an ancestor holds it and `get` succeeds on it; a local key
of the wrong type is `TypeMismatch`. -/
theorem frame_get_mut_local_only (d : List (String × Value)) (p : Option Frame)
    (ty : Ty) (k : String) :
    (Frame.mk d p).get_mut ty k = (Frame.mk d none).get_mut ty k
    ∧ (d.lookup k = none →
        (Frame.mk d p).get_mut ty k = .error (.notFoundInFrame k))
    ∧ (∀ w, d.lookup k = some w → w.ty ≠ ty →
        (Frame.mk d p).get_mut ty k = .error (.typeMismatch k))
    ∧ (∀ A v, p = some A → d.lookup k = none → A.get ty k = .ok v →
        (Frame.mk d p).get ty k = .ok v
        ∧ (Frame.mk d p).get_mut ty k = .error (.notFoundInFrame k)) := by
  refine ⟨rfl, ?_, ?_, ?_⟩
  · intro h
    simp [Frame.get_mut, h]
  · intro w hw hne
    simp [Frame.get_mut, hw, hne]
  · intro A v hp hl hA
    subst hp
    exact ⟨by simp [Frame.get, hl, hA], by simp [Frame.get_mut, hl]⟩

/-- Claim C6 witness: key `"k"` lives only in the ancestor — `get` finds it,
`get_mut` reports it not found. -/
theorem frame_get_mut_local_only_witness :
    (Frame.mk [("x", Value.string "s")]
        (some (Frame.mk [("k", Value.u8 7)] none))).get Ty.u8 "k" = .ok (Value.u8 7)
    ∧ (Frame.mk [("x", Value.string "s")]
        (some (Frame.mk [("k", Value.u8 7)] none))).get_mut Ty.u8 "k"
      = .error (GetError.notFoundInFrame "k") :=
  (frame_get_mut_local_only [("x", Value.string "s")]
      (some (Frame.mk [("k", Value.u8 7)] none)) Ty.u8 "k").2.2.2
    (Frame.mk [("k", Value.u8 7)] none) (Value.u8 7) rfl rfl rfl

/-- Claim C7: truncated stream — if the reader holds a strictly shorter
initial segment of an encoded record (it ends mid-frame), `read_frame`
returns an io error, never a silent `Ok(None)` and never a frame. -/
theorem file_read_frame_truncated_err (m : List (String × Value)) (p q : List Nat)
    (happ : p ++ q = encodeMap m) (hq : q ≠ []) :
    (File.new p FileMode.read).read_frame
      = ReadOutcome.err ⟨ErrorKind.other⟩ (File.mk (some p) none) := by
  have hdec : decodeMap p = none := decodeMap_trunc happ hq
  simp [File.new, File.read_frame, Frame.read_from_stream, Frame.new, hdec]

/-- Claim C7 witness: the record for `{"a": 5u8}` encodes to
`[1, 1, 97, 1, 5]`; cut after three tokens, the read errs. -/
theorem file_read_frame_truncated_err_witness :
    (File.new [1, 1, 97] FileMode.read).read_frame
      = ReadOutcome.err ⟨ErrorKind.other⟩ (File.mk (some [1, 1, 97]) none) :=
  file_read_frame_truncated_err [("a", Value.u8 5)] [1, 1, 97] [1, 5]
    (by decide) (by decide)

/-- Claim C8: wrong-mode misuse panics — `read_frame` on a file constructed
in `Write` or `Append` mode, and `write_frame` on a file constructed in
`Read` mode, hit the explicit panic arms; they never return a recoverable
result. -/
theorem file_wrong_mode_panics (contents : List Nat) (fr : Frame) :
    (File.new contents FileMode.write).read_frame
      = ReadOutcome.panicked "trying to read to a write-only file"
    ∧ (File.new contents FileMode.append).read_frame
      = ReadOutcome.panicked "trying to read to a write-only file"
    ∧ (File.new contents FileMode.read).write_frame fr
      = WriteOutcome.panicked "trying to write to a read-only file" :=
  ⟨rfl, rfl, rfl⟩

/-- Claim C9: `run()` is literally `run_bounded(u64::MAX)`, and for a start
stage that is exhausted after `m` frames (`m`-th call is `None`, all earlier
calls produce frames, `m` within the bound) the run performs exactly those
`m` iterations — it stops only at the start stage's `None`. -/
theorem tray_run_eq_run_bounded_max (t : Tray) (m : Nat)
    (hm : m ≤ 2 ^ 64 - 1)
    (hnone : t.start_module m = none)
    (hsome : ∀ j, j < m → (t.start_module j).isSome = true) :
    t.run = t.run_bounded (2 ^ 64 - 1) ∧ t.run.length = m := by
  refine ⟨rfl, ?_⟩
  exact runFrom_length_exhaust t 0 (2 ^ 64 - 1) m hm (by simpa using hnone)
    (fun j hj => by simpa using hsome j hj)

/-- Claim C9 witness: a start stage producing exactly 2 frames — `run()`
performs exactly 2 iterations. -/
theorem tray_run_eq_run_bounded_max_witness :
    (Tray.run ⟨fun i => if i < 2 then some (Frame.mk [] none) else none, []⟩).length = 2 :=
  (tray_run_eq_run_bounded_max
    ⟨fun i => if i < 2 then some (Frame.mk [] none) else none, []⟩ 2
    (by decide) rfl (by decide)).2

/-- Claim C10: decode-failure atomicity — whenever `read_from_stream`
returns an error, the frame (local map AND ancestor pointer) and the stream
are exactly what they were before the call. -/
theorem frame_read_from_stream_atomic (f : Frame) (source : List Nat) (e : IoError)
    (h : (f.read_from_stream source).1 = .error e) :
    (f.read_from_stream source).2.1 = f
    ∧ (f.read_from_stream source).2.2 = source := by
  cases hd : decodeMap source with
  | none => simp [Frame.read_from_stream, hd]
  | some x =>
    obtain ⟨d, rest⟩ := x
    simp [Frame.read_from_stream, hd] at h

/-- Claim C10 witness: decoding `[7, 7]` fails, and the frame
`{"a": 1u8}` (no parent) and the stream come back unchanged. -/
theorem frame_read_from_stream_atomic_witness :
    ((Frame.mk [("a", Value.u8 1)] none).read_from_stream [7, 7]).2.1
      = Frame.mk [("a", Value.u8 1)] none
    ∧ ((Frame.mk [("a", Value.u8 1)] none).read_from_stream [7, 7]).2.2 = [7, 7] :=
  frame_read_from_stream_atomic (Frame.mk [("a", Value.u8 1)] none) [7, 7]
    ⟨ErrorKind.other⟩ rfl

end Rime
